import Mathlib

/-!
# The trivia quiz of `src/script.js`

A shallow embedding of the `QuizApp` class: its fields, the page elements it
writes, the callbacks it leaves with the browser (one `fetch`, the
`setTimeout` of `selectAnswer`), and its methods as functions on that state.

Conventions of the embedding.

* `Math.floor(Math.random() * (i + 1))` is an integer `j` with `0 ≤ j ≤ i`.
  The sequence of these integers, in the order the calls are made, is an input
  of the model (`Picks`); a method that draws returns the rest of the sequence.
* `decodeHtml` reads back text through a `textarea` element; it is a parameter
  `decodeHtml : String → String`.
* A method in which a `TypeError` can be thrown returns `Except QuizApp QuizApp`:
  `.error app` carries the state as it is when the exception is thrown.
* `progressEl.style.width`, a floating-point percentage, is not part of the state.
-/

namespace CoreAuth

/-! ## Randomizer -/

/-- The integers `Math.floor(Math.random() * (i + 1))` of the successive calls. -/
abbrev Picks := Nat → Nat

/-- The sequence after its first draw has been consumed. -/
def Picks.next (rand : Picks) : Picks := fun k => rand (k + 1)

/-- Destructuring swap `[a[i], a[j]] = [a[j], a[i]]` for two indices inside the array.
(The loop of `shuffleArray` only uses `j ≤ i < a.length`; outside the array the
model leaves the list as it is.) -/
def swap {α : Type} (a : List α) (i j : Nat) : List α :=
  match a[i]?, a[j]? with
  | some x, some y => (a.set i y).set j x
  | _, _ => a

/-- The loop `for (let i = ...; i > 0; i--)` of `shuffleArray`, entered with the
counter at `i`: one draw and one swap per round. -/
def shuffleLoop {α : Type} : Nat → List α → Picks → List α × Picks
  | 0, shuffled, rand => (shuffled, rand)
  | i + 1, shuffled, rand => shuffleLoop i (swap shuffled (i + 1) (rand 0)) rand.next

/-- Method `shuffleArray(array)`: copy, then the loop from `length - 1` down to `1`. -/
def shuffleArray {α : Type} (array : List α) (rand : Picks) : List α × Picks :=
  shuffleLoop (array.length - 1) array rand

/-- Every draw of one `shuffleArray` call on `n` elements is inside its range:
draw number `k` is made with the counter at `i = n - 1 - k` and is at most `i`. -/
def PicksInRange (n : Nat) (rand : Picks) : Prop :=
  ∀ k, k < n - 1 → rand k ≤ n - 1 - k

/-- The pick sequence that starts with the listed draws and continues with `0`. -/
def picksOf (js : List Nat) : Picks := fun k => js.getD k 0

/-- All in-range pick sequences of a `shuffleArray` loop entered with the counter at
`i`: the first draw is one of `0, ..., i`, the rest is a sequence for `i - 1`. -/
def pickSequences : Nat → List (List Nat)
  | 0 => [[]]
  | i + 1 => (List.range (i + 2)).flatMap fun j => (pickSequences i).map (List.cons j)

/-! ## Data model -/

/-- One record of `data.results` as the provider sends it (texts HTML-encoded). -/
structure RawQuestion where
  question : String
  correct_answer : String
  incorrect_answers : List String
  deriving DecidableEq

/-- The JSON body of the provider: `response_code` and `results`. -/
structure ApiData where
  response_code : Int
  results : List RawQuestion
  deriving DecidableEq

/-- An element of `this.questions`. -/
structure Question where
  question : String
  correctAnswer : String
  answers : List String
  deriving DecidableEq

/-- A `button` element of `answersEl`: its text, its `disabled` attribute and its class list. -/
structure Button where
  textContent : String
  disabled : Bool
  classList : List String
  deriving DecidableEq

/-- Method `classList.add(name)`: a class already present is not added again. -/
def Button.classListAdd (btn : Button) (name : String) : Button :=
  if name ∈ btn.classList then btn else { btn with classList := btn.classList ++ [name] }

/-- The page elements the class writes. A text is `none` until the script writes it;
the counter, final score and result message keep the two numbers of their template. -/
structure Document where
  /-- Whether `loadingEl` carries the class `hidden`. -/
  loadingElHidden : Bool
  /-- Whether `quizEl` carries the class `hidden`. -/
  quizElHidden : Bool
  /-- Whether `resultEl` carries the class `hidden`. -/
  resultElHidden : Bool
  /-- Whether `loadingEl.innerHTML` is the error markup written by `showError`. -/
  loadingElError : Bool
  /-- Text `questionEl.textContent`. -/
  questionElText : Option String
  /-- The buttons inside `answersEl`, in document order. -/
  answersElButtons : List Button
  /-- Text `questionCounterEl.textContent`, the pair `(k, n)` of `Question k of n`. -/
  questionCounterElText : Option (Nat × Nat)
  /-- Text `scoreDisplayEl.textContent`, the number of `Score: s`. -/
  scoreDisplayElText : Option Nat
  /-- Text `finalScoreEl.textContent`, the pair `(s, n)` of `s/n`. -/
  finalScoreElText : Option (Nat × Nat)
  /-- Text `resultMessageEl.textContent`, the pair `(s, n)` of `You got s out of n questions correct`. -/
  resultMessageElText : Option (Nat × Nat)
  deriving DecidableEq

/-- The `QuizApp` object together with its page and the callbacks it has left with
the browser. -/
structure QuizApp extends Document where
  questions : List Question
  currentQuestion : Nat
  score : Nat
  /-- Field `selectedAnswer`, with `null` as `none`. -/
  selectedAnswer : Option String
  showingResult : Bool
  /-- Callbacks armed by `setTimeout` in `selectAnswer` that have not fired yet. -/
  pendingTimers : Nat
  /-- Calls of `loadQuestions` that are waiting at `await fetch(...)`. -/
  pendingFetches : Nat
  deriving DecidableEq

/-- The state an `Except`-valued method leaves behind, whether it returned or threw. -/
def settle (r : Except QuizApp QuizApp) : QuizApp :=
  match r with
  | .ok app => app
  | .error app => app

namespace QuizApp

/-! ## View switches -/

/-- Method `showLoading()`. -/
def showLoading (app : QuizApp) : QuizApp :=
  { app with loadingElHidden := false, quizElHidden := true, resultElHidden := true }

/-- Method `showQuiz()`. -/
def showQuiz (app : QuizApp) : QuizApp :=
  { app with loadingElHidden := true, quizElHidden := false, resultElHidden := true }

/-- Method `showResult()`. -/
def showResult (app : QuizApp) : QuizApp :=
  { app with loadingElHidden := true, quizElHidden := true, resultElHidden := false }

/-- Method `showError()`: replaces the content of `loadingEl`; no class is touched. -/
def showError (app : QuizApp) : QuizApp :=
  { app with loadingElError := true }

/-! ## Quiz state machine -/

/-- Method `displayQuestion()`. With no question at `currentQuestion` the read
`question.question` throws after the counter and the score have been written. -/
def displayQuestion (app : QuizApp) : Except QuizApp QuizApp :=
  let app1 : QuizApp :=
    { app with
      questionCounterElText := some (app.currentQuestion + 1, app.questions.length)
      scoreDisplayElText := some app.score }
  match app.questions[app.currentQuestion]? with
  | none => .error app1
  | some question =>
    .ok
      { app1 with
        questionElText := some question.question
        answersElButtons :=
          question.answers.map fun answer =>
            ({ textContent := answer, disabled := false, classList := ["btn"] } : Button)
        selectedAnswer := none
        showingResult := false }

/-- The body of `allButtons.forEach(btn => ...)` in `selectAnswer`, for the button at
position `index` of `answersEl`; `buttonEl` is the position of the clicked button. -/
def markButton (question : Question) (isCorrect : Bool) (buttonEl : Nat)
    (index : Nat) (btn : Button) : Button :=
  let btn : Button := { btn with disabled := true }
  if btn.textContent = question.correctAnswer then btn.classListAdd "correct"
  else if index = buttonEl ∧ isCorrect = false then btn.classListAdd "incorrect"
  else if index ≠ buttonEl ∧ btn.textContent ≠ question.correctAnswer then
    btn.classListAdd "disabled"
  else btn

/-- Method `selectAnswer(answer, buttonEl)`; the button is named by its position in `answersEl`.
With no question at `currentQuestion` the read `question.correctAnswer` throws after
`selectedAnswer` and `showingResult` have been assigned. -/
def selectAnswer (app : QuizApp) (answer : String) (buttonEl : Nat) :
    Except QuizApp QuizApp :=
  if app.showingResult then .ok app
  else
    let app1 : QuizApp := { app with selectedAnswer := some answer, showingResult := true }
    match app1.questions[app1.currentQuestion]? with
    | none => .error app1
    | some question =>
      let isCorrect : Bool := decide (answer = question.correctAnswer)
      let app2 : QuizApp :=
        { app1 with
          answersElButtons := app1.answersElButtons.mapIdx (markButton question isCorrect buttonEl) }
      let app3 : QuizApp :=
        if isCorrect then
          { app2 with score := app2.score + 1, scoreDisplayElText := some (app2.score + 1) }
        else app2
      .ok { app3 with pendingTimers := app3.pendingTimers + 1 }

/-- Method `showFinalResult()`. -/
def showFinalResult (app : QuizApp) : QuizApp :=
  showResult
    { app with
      finalScoreElText := some (app.score, app.questions.length)
      resultMessageElText := some (app.score, app.questions.length) }

/-- Method `nextQuestion()`. -/
def nextQuestion (app : QuizApp) : Except QuizApp QuizApp :=
  let app1 : QuizApp := { app with currentQuestion := app.currentQuestion + 1 }
  if app1.currentQuestion < app1.questions.length then displayQuestion app1
  else .ok (showFinalResult app1)

/-! ## Question source -/

/-- The callback of `data.results.map(...)` run over the records in order; each
record's `shuffleArray` call draws from where the previous one stopped. -/
def mapResults (decodeHtml : String → String) :
    List RawQuestion → Picks → List Question × Picks
  | [], rand => ([], rand)
  | question :: rest, rand =>
    let shuffled :=
      shuffleArray
        (decodeHtml question.correct_answer :: question.incorrect_answers.map decodeHtml) rand
    let tail := mapResults decodeHtml rest shuffled.2
    ({ question := decodeHtml question.question
       correctAnswer := decodeHtml question.correct_answer
       answers := shuffled.1 } :: tail.1, tail.2)

/-- Method `loadQuestions()` up to `await fetch(...)`: the loading view is shown and the
request is out. -/
def loadQuestionsStart (app : QuizApp) : QuizApp :=
  { showLoading app with pendingFetches := app.pendingFetches + 1 }

/-- Method `loadQuestions()` from the point where the awaited request settles.
`response = none` is a rejected `fetch` or a body `response.json()` cannot parse;
both throw inside the `try`. Whatever is thrown inside the `try`, `displayQuestion`'s
`TypeError` included, ends in `showError()`. -/
def loadQuestionsFinish (decodeHtml : String → String) (app : QuizApp)
    (response : Option ApiData) (rand : Picks) : QuizApp × Picks :=
  let app0 : QuizApp := { app with pendingFetches := app.pendingFetches - 1 }
  match response with
  | none => (showError app0, rand)
  | some data =>
    if data.response_code = 0 then
      let mapped := mapResults decodeHtml data.results rand
      let app1 : QuizApp := showQuiz { app0 with questions := mapped.1 }
      match displayQuestion app1 with
      | .ok app2 => (app2, mapped.2)
      | .error app2 => (showError app2, mapped.2)
    else (showError app0, rand)

/-- One whole `loadQuestions()` call with nothing else happening while the request
is pending. -/
def loadQuestions (decodeHtml : String → String) (app : QuizApp)
    (response : Option ApiData) (rand : Picks) : QuizApp × Picks :=
  loadQuestionsFinish decodeHtml (loadQuestionsStart app) response rand

/-- Method `restartQuiz()`: the five assignments, then `loadQuestions()` as far as its `await`. -/
def restartQuiz (app : QuizApp) : QuizApp :=
  loadQuestionsStart
    { app with
      currentQuestion := 0
      score := 0
      selectedAnswer := none
      showingResult := false
      questions := [] }

/-- The object after the five field initialisers of the constructor, on a page in
state `document`; no callback is out yet. -/
def initial (document : Document) : QuizApp :=
  { toDocument := document
    questions := []
    currentQuestion := 0
    score := 0
    selectedAnswer := none
    showingResult := false
    pendingTimers := 0
    pendingFetches := 0 }

/-- Constructor `new QuizApp()` on a page in state `document`: the field initialisers, then
`loadQuestions()` as far as its `await`. (`initializeElements` and `bindEvents`
look elements up and register the restart handler; they write nothing.) -/
def constructor (document : Document) : QuizApp :=
  loadQuestionsStart (initial document)

end QuizApp

/-! ## Events -/

/-- What the browser can run on a quiz in progress: an answer button's click
handler, which calls `selectAnswer(answer, button)`, and an armed timeout, which
calls `nextQuestion()`. -/
inductive Event where
  | click (answer : String) (buttonEl : Nat)
  | timeout
  deriving DecidableEq

/-- One event. A timeout can fire only while one is armed. An exception thrown by
a handler ends that handler and leaves the state as it then is. -/
def step (app : QuizApp) : Event → QuizApp
  | .click answer buttonEl => settle (app.selectAnswer answer buttonEl)
  | .timeout =>
    if app.pendingTimers = 0 then app
    else settle (QuizApp.nextQuestion { app with pendingTimers := app.pendingTimers - 1 })

/-- A sequence of events, oldest first. -/
def run (app : QuizApp) (events : List Event) : QuizApp :=
  events.foldl step app

/-- The number of draws `data.results.map(...)` has made when it reaches record `k`:
a record with `m` incorrect answers is shuffled with `m` draws. -/
def drawsBefore (results : List RawQuestion) (k : Nat) : Nat :=
  ((results.take k).map fun record => record.incorrect_answers.length).sum

/-- The question `loadQuestions` builds from `record` when the shuffle draws from `rand`. -/
def questionOf (decodeHtml : String → String) (record : RawQuestion) (rand : Picks) : Question :=
  { question := decodeHtml record.question
    correctAnswer := decodeHtml record.correct_answer
    answers :=
      (shuffleArray
        (decodeHtml record.correct_answer :: record.incorrect_answers.map decodeHtml) rand).1 }

/-- A page on which nothing has been written yet and only the loading element shows. -/
def blankDocument : Document :=
  { loadingElHidden := false
    quizElHidden := true
    resultElHidden := true
    loadingElError := false
    questionElText := none
    answersElButtons := []
    questionCounterElText := none
    scoreDisplayElText := none
    finalScoreElText := none
    resultMessageElText := none }

/-- A successful response whose only record lists the correct answer among the
incorrect ones as well. -/
def duplicateData : ApiData :=
  { response_code := 0
    results :=
      [{ question := "Q", correct_answer := "A", incorrect_answers := ["A", "B", "C"] }] }

/-- A session as it is right after a successful load of at least one question by the
constructor (or by a restart from the final view): question 0 is displayed and
unanswered, nothing is scored and no timeout is armed. -/
def FreshSession (app : QuizApp) : Prop :=
  app.questions ≠ [] ∧ app.currentQuestion = 0 ∧ app.score = 0 ∧
    app.showingResult = false ∧ app.pendingTimers = 0

instance (app : QuizApp) : Decidable (FreshSession app) := by
  unfold FreshSession; infer_instance

/-- The shape of every state of a quiz in progress: an unanswered question with no
timeout armed, an answered question with exactly one timeout armed, or the end of the
list with none; the score never runs ahead of the questions answered. -/
def SessionInv (app : QuizApp) : Prop :=
  (app.showingResult = false →
      app.currentQuestion < app.questions.length ∧ app.score ≤ app.currentQuestion ∧
        app.pendingTimers = 0) ∧
    (app.showingResult = true →
      (app.currentQuestion < app.questions.length ∧ app.score ≤ app.currentQuestion + 1 ∧
          app.pendingTimers = 1) ∨
        (app.currentQuestion = app.questions.length ∧ app.score ≤ app.questions.length ∧
          app.pendingTimers = 0))

/-- The events of a play-through: for each question, in order, one click with the
selected answer (and the button clicked), then the timeout that click armed. -/
def playThrough : List (String × Nat) → List Event
  | [] => []
  | (answer, buttonEl) :: rest => Event.click answer buttonEl :: Event.timeout :: playThrough rest

/-- The number of questions whose selected answer equals the question's `correctAnswer`,
question `k` being paired with selection `k`. -/
def correctSelections : List Question → List (String × Nat) → Nat
  | question :: questions, (answer, _) :: rest =>
    (if answer = question.correctAnswer then 1 else 0) + correctSelections questions rest
  | _, _ => 0

/-- The call `nextQuestion()` made `n` times in a row. -/
def nextQuestionTimes : Nat → QuizApp → Except QuizApp QuizApp
  | 0, app => .ok app
  | n + 1, app =>
    match app.nextQuestion with
    | .ok app2 => nextQuestionTimes n app2
    | .error app2 => .error app2

/-- A successful response with `n` records, each with the correct answer `a` and the
incorrect answers `b`, `c`, `d`. -/
def sampleData (n : Nat) : ApiData :=
  { response_code := 0
    results :=
      List.replicate n
        { question := "Q", correct_answer := "a", incorrect_answers := ["b", "c", "d"] } }

/-- The session after the constructor has loaded `sampleData n` on a blank page, every
pick being `0`; each question's answers are then `b`, `c`, `d`, `a`. -/
def sampleSession (n : Nat) : QuizApp :=
  (QuizApp.loadQuestions id (QuizApp.initial blankDocument) (some (sampleData n)) (picksOf [])).1

/-- A response with a failure status (the provider's code 5) and no records. -/
def failureData : ApiData := { response_code := 5, results := [] }

/-- Ten selections, in order: the correct answer `a` (button 3) seven times, then the
incorrect answer `b` (button 0) three times. -/
def sevenOfTen : List (String × Nat) :=
  List.replicate 7 ("a", 3) ++ List.replicate 3 ("b", 0)

/-! ## The swap -/

theorem swap_length {α : Type} (a : List α) (i j : Nat) : (swap a i j).length = a.length := by
  unfold swap
  split <;> simp

theorem getElem?_swap {α : Type} (a : List α) (i j m : Nat) (hi : i < a.length)
    (hj : j < a.length) :
    (swap a i j)[m]? = if m = j then a[i]? else if m = i then a[j]? else a[m]? := by
  unfold swap
  rw [List.getElem?_eq_getElem hi, List.getElem?_eq_getElem hj]
  simp only [List.getElem?_set, List.length_set]
  by_cases h1 : j = m
  · subst h1; simp [hj]
  · by_cases h2 : i = m
    · subst h2; simp [h1, hi, Ne.symm h1]
    · simp [h1, h2, Ne.symm h1, Ne.symm h2]

theorem swap_perm {α : Type} (a : List α) (i j : Nat) : (swap a i j).Perm a := by
  classical
  unfold swap
  split
  · rename_i x y hx hy
    obtain ⟨hi, rfl⟩ := List.getElem?_eq_some.1 hx
    obtain ⟨hj, rfl⟩ := List.getElem?_eq_some.1 hy
    rw [List.perm_iff_count]
    intro c
    rw [List.count_set _ _ _ _ (by simpa using hj), List.count_set _ _ _ _ hi]
    have h1 := List.count_pos_iff.2 (List.getElem_mem hi)
    have h2 := List.count_pos_iff.2 (List.getElem_mem hj)
    simp only [List.getElem_set, beq_iff_eq]
    by_cases hij : i = j
    · subst hij
      simp only [if_true]
      split <;> rename_i h
      · rw [h] at h1; omega
      · omega
    · simp only [hij, if_false]
      by_cases ha : a[i] = c <;> by_cases hb : a[j] = c <;> simp only [ha, hb, if_true, if_false]
      · rw [ha] at h1; omega
      · rw [ha] at h1; omega
      · rw [hb] at h2; omega
      · omega
  · exact List.Perm.refl _

/-! ## The shuffle loop -/

theorem shuffleLoop_perm {α : Type} (i : Nat) (l : List α) (rand : Picks) :
    (shuffleLoop i l rand).1.Perm l := by
  induction i generalizing l rand with
  | zero => exact List.Perm.refl _
  | succ i ih => exact (ih _ _).trans (swap_perm _ _ _)

theorem shuffleLoop_length {α : Type} (i : Nat) (l : List α) (rand : Picks) :
    (shuffleLoop i l rand).1.length = l.length :=
  (shuffleLoop_perm i l rand).length_eq

theorem shuffleLoop_picks {α : Type} (i : Nat) (l : List α) (rand : Picks) :
    (shuffleLoop i l rand).2 = fun k => rand (k + i) := by
  induction i generalizing l rand with
  | zero => rfl
  | succ i ih =>
    simp only [shuffleLoop, ih, Picks.next]
    rfl

/-- Rounds `i, i - 1, ..., 1` with in-range draws leave every position above `i` alone. -/
theorem shuffleLoop_getElem?_above {α : Type} (i : Nat) (l : List α) (rand : Picks)
    (hi : i < l.length) (hr : ∀ k, k < i → rand k ≤ i - k) (m : Nat) (hm : i < m) :
    (shuffleLoop i l rand).1[m]? = l[m]? := by
  induction i generalizing l rand with
  | zero => rfl
  | succ i ih =>
    have h0 : rand 0 ≤ i + 1 := by simpa using hr 0 (by omega)
    simp only [shuffleLoop]
    rw [ih _ _ (by rw [swap_length]; omega)
      (fun k hk => by have := hr (k + 1) (by omega); simp only [Picks.next]; omega) (by omega)]
    rw [getElem?_swap _ _ _ _ hi (by omega)]
    rw [if_neg (by omega), if_neg (by omega)]

/-- After the rounds `i + 1, ..., 1` position `i + 1` holds what the first draw chose. -/
theorem shuffleLoop_getElem?_top {α : Type} (i : Nat) (l : List α) (rand : Picks)
    (hi : i + 1 < l.length) (hr : ∀ k, k < i + 1 → rand k ≤ i + 1 - k) :
    (shuffleLoop (i + 1) l rand).1[i + 1]? = l[rand 0]? := by
  have h0 : rand 0 ≤ i + 1 := by simpa using hr 0 (by omega)
  simp only [shuffleLoop]
  rw [shuffleLoop_getElem?_above _ _ _ (by rw [swap_length]; omega)
    (fun k hk => by have := hr (k + 1) (by omega); simp only [Picks.next]; omega) _ (by omega)]
  rw [getElem?_swap _ _ _ _ hi (by omega)]
  by_cases h : i + 1 = rand 0
  · rw [if_pos h, h]
  · rw [if_neg h, if_pos rfl]

/-- In-range draws that shuffle a duplicate-free list to the same result are the same draws. -/
theorem shuffleLoop_injective {α : Type} (i : Nat) (l : List α) (rand1 rand2 : Picks)
    (hl : l.Nodup) (hi : i < l.length)
    (h1 : ∀ k, k < i → rand1 k ≤ i - k) (h2 : ∀ k, k < i → rand2 k ≤ i - k)
    (heq : (shuffleLoop i l rand1).1 = (shuffleLoop i l rand2).1) :
    ∀ k, k < i → rand1 k = rand2 k := by
  induction i generalizing l rand1 rand2 with
  | zero => intro k hk; omega
  | succ i ih =>
    have h10 : rand1 0 ≤ i + 1 := by simpa using h1 0 (by omega)
    have h20 : rand2 0 ≤ i + 1 := by simpa using h2 0 (by omega)
    have htop : l[rand1 0]? = l[rand2 0]? := by
      rw [← shuffleLoop_getElem?_top i l rand1 hi h1, ← shuffleLoop_getElem?_top i l rand2 hi h2,
        heq]
    have h0 : rand1 0 = rand2 0 := by
      rw [List.getElem?_eq_getElem (by omega), List.getElem?_eq_getElem (by omega),
        Option.some_inj] at htop
      exact (hl.getElem_inj_iff).1 htop
    have hrest := ih (swap l (i + 1) (rand1 0)) rand1.next rand2.next
      ((swap_perm _ _ _).nodup_iff.2 hl) (by rw [swap_length]; omega)
      (fun k hk => by have := h1 (k + 1) (by omega); simp only [Picks.next]; omega)
      (fun k hk => by have := h2 (k + 1) (by omega); simp only [Picks.next]; omega)
      (by
        have := heq
        simp only [shuffleLoop] at this
        rw [← h0] at this
        exact this)
    intro k hk
    cases k with
    | zero => exact h0
    | succ k => exact hrest k (by omega)

/-- Every rearrangement of a duplicate-free list that keeps the positions above `i`
is reached by the rounds `i, ..., 1` for some in-range draws. -/
theorem shuffleLoop_surjective {α : Type} (i : Nat) (l p : List α)
    (hl : l.Nodup) (hi : i < l.length) (hp : p.Perm l)
    (habove : ∀ m, i < m → p[m]? = l[m]?) :
    ∃ rand : Picks, (∀ k, k < i → rand k ≤ i - k) ∧ (shuffleLoop i l rand).1 = p := by
  induction i generalizing l with
  | zero =>
    refine ⟨fun _ => 0, fun k hk => by omega, ?_⟩
    simp only [shuffleLoop]
    have hlen : p.length = l.length := hp.length_eq
    have hpn : p.Nodup := hp.nodup_iff.2 hl
    apply List.ext_getElem? 
    intro m
    cases m with
    | succ m => exact (habove _ (by omega)).symm
    | zero =>
      -- the element at position 0 is the one not found above
      have hp0 : 0 < p.length := by omega
      have hmem : p[0] ∈ l := hp.subset (List.getElem_mem hp0)
      obtain ⟨j, hj, hjeq⟩ := List.getElem_of_mem hmem
      cases j with
      | zero => rw [List.getElem?_eq_getElem hi, List.getElem?_eq_getElem hp0, hjeq]
      | succ j =>
        exfalso
        have h3 := habove (j + 1) (by omega)
        rw [List.getElem?_eq_getElem hj, List.getElem?_eq_getElem (by omega), Option.some_inj,
          hjeq] at h3
        have := (hpn.getElem_inj_iff).1 h3
        omega
  | succ i ih =>
    have hlen : p.length = l.length := hp.length_eq
    have hpn : p.Nodup := hp.nodup_iff.2 hl
    have hpi : i + 1 < p.length := by omega
    have hmem : p[i + 1] ∈ l := hp.subset (List.getElem_mem hpi)
    obtain ⟨j, hj, hjeq⟩ := List.getElem_of_mem hmem
    have hji : j ≤ i + 1 := by
      by_contra hcon
      have h3 := habove j (by omega)
      rw [List.getElem?_eq_getElem hj, List.getElem?_eq_getElem (by omega), Option.some_inj,
        hjeq] at h3
      have := (hpn.getElem_inj_iff).1 h3
      omega
    obtain ⟨rand, hr, hres⟩ := ih (swap l (i + 1) j) ((swap_perm _ _ _).nodup_iff.2 hl)
      (by rw [swap_length]; omega) (hp.trans (swap_perm _ _ _).symm)
      (fun m hm => by
        rw [getElem?_swap _ _ _ _ hi hj]
        by_cases hmj : m = j
        · have : j = i + 1 := by omega
          subst hmj
          subst this
          rw [if_pos rfl, List.getElem?_eq_getElem hj, List.getElem?_eq_getElem hpi, hjeq]
        · rw [if_neg hmj]
          by_cases hmi : m = i + 1
          · rw [if_pos hmi, hmi, List.getElem?_eq_getElem hj, List.getElem?_eq_getElem hpi, hjeq]
          · rw [if_neg hmi]; exact habove m (by omega))
    refine ⟨fun k => if k = 0 then j else rand (k - 1), ?_, ?_⟩
    · intro k hk
      cases k with
      | zero => simpa using hji
      | succ k => have := hr k (by omega); simp only [Nat.succ_ne_zero, if_false]; simp; omega
    · simp only [shuffleLoop, if_true]
      have : Picks.next (fun k => if k = 0 then j else rand (k - 1)) = rand := by
        funext k; simp [Picks.next]
      rw [this]
      exact hres

theorem pickSequences_length (i : Nat) : (pickSequences i).length = (i + 1).factorial := by
  induction i with
  | zero => rfl
  | succ i ih =>
    have hconst : (List.length ∘ fun j => List.map (List.cons j) (pickSequences i)) =
        fun _ => (i + 1).factorial := by
      funext j
      simp only [Function.comp_apply, List.length_map, ih]
    simp only [pickSequences, List.length_flatMap, hconst]
    rw [List.map_const', List.sum_replicate, List.length_range, Nat.factorial_succ (i + 1)]
    simp

theorem mem_pickSequences (i : Nat) (js : List Nat) :
    js ∈ pickSequences i ↔ js.length = i ∧ ∀ k, k < i → js.getD k 0 ≤ i - k := by
  induction i generalizing js with
  | zero =>
    simp only [pickSequences, List.mem_singleton]
    constructor
    · rintro rfl; exact ⟨rfl, fun k hk => by omega⟩
    · rintro ⟨h, -⟩; exact List.length_eq_zero.1 h
  | succ i ih =>
    simp only [pickSequences, List.mem_flatMap, List.mem_range, List.mem_map]
    constructor
    · rintro ⟨j, hj, tl, htl, rfl⟩
      obtain ⟨hlen, hr⟩ := (ih tl).1 htl
      refine ⟨by simp [hlen], fun k hk => ?_⟩
      cases k with
      | zero => rw [List.getD_cons_zero]; omega
      | succ k => have := hr k (by omega); rw [List.getD_cons_succ]; omega
    · rintro ⟨hlen, hr⟩
      cases js with
      | nil => simp at hlen
      | cons j tl =>
        refine ⟨j, ?_, tl, (ih tl).2 ⟨by simpa using hlen, fun k hk => ?_⟩, rfl⟩
        · have := hr 0 (by omega); rw [List.getD_cons_zero] at this; omega
        · have := hr (k + 1) (by omega); rw [List.getD_cons_succ] at this; omega

theorem pickSequences_nodup (i : Nat) : (pickSequences i).Nodup := by
  induction i with
  | zero => simp [pickSequences]
  | succ i ih =>
    simp only [pickSequences]
    rw [List.nodup_flatMap]
    refine ⟨fun j _ => ih.map (List.cons_injective), ?_⟩
    refine (List.nodup_range (i + 2)).imp ?_
    intro a b hab
    simp only [Function.onFun]
    intro x hx1 hx2
    simp only [List.mem_map] at hx1 hx2
    obtain ⟨t1, -, rfl⟩ := hx1
    obtain ⟨t2, -, h2⟩ := hx2
    exact hab (List.cons.inj h2).1.symm

/-- The result of the loop depends only on the draws it makes. -/
theorem shuffleLoop_congr {α : Type} (i : Nat) (l : List α) (rand1 rand2 : Picks)
    (h : ∀ k, k < i → rand1 k = rand2 k) :
    (shuffleLoop i l rand1).1 = (shuffleLoop i l rand2).1 := by
  induction i generalizing l rand1 rand2 with
  | zero => rfl
  | succ i ih =>
    simp only [shuffleLoop]
    rw [h 0 (by omega)]
    exact ih _ _ _ fun k hk => h (k + 1) (by omega)

/-- The enumerated pick sequences produce, each exactly once, the rearrangements of a
duplicate-free array. -/
theorem shuffleArray_pickSequences {α : Type} (array : List α) (hdistinct : array.Nodup) :
    ((pickSequences (array.length - 1)).map fun js => (shuffleArray array (picksOf js)).1).Perm
      array.permutations := by
  rcases Nat.eq_zero_or_pos array.length with h0 | hpos
  · have harr : array = [] := List.length_eq_zero.1 h0
    subst harr
    simp [pickSequences, shuffleArray, shuffleLoop]
  · have hi : array.length - 1 < array.length := by omega
    have hnd : ((pickSequences (array.length - 1)).map fun js =>
        (shuffleArray array (picksOf js)).1).Nodup := by
      refine (pickSequences_nodup _).map_on ?_
      intro js1 h1 js2 h2 heq
      obtain ⟨hl1, hr1⟩ := (mem_pickSequences _ _).1 h1
      obtain ⟨hl2, hr2⟩ := (mem_pickSequences _ _).1 h2
      have hk := shuffleLoop_injective _ array (picksOf js1) (picksOf js2) hdistinct hi hr1 hr2 heq
      apply List.ext_getElem (hl1.trans hl2.symm)
      intro k hk1 hk2
      have := hk k (by omega)
      simp only [picksOf] at this
      rw [List.getD_eq_getElem _ _ hk1, List.getD_eq_getElem _ _ hk2] at this
      exact this
    rw [List.perm_ext_iff_of_nodup hnd (List.nodup_permutations _ hdistinct)]
    intro p
    rw [List.mem_permutations, List.mem_map]
    constructor
    · rintro ⟨js, -, rfl⟩
      exact shuffleLoop_perm _ _ _
    · intro hp
      have hlen := hp.length_eq
      obtain ⟨rand, hr, hres⟩ := shuffleLoop_surjective (array.length - 1) array p hdistinct hi hp
        (fun m hm => by
          rw [List.getElem?_eq_none (by omega), List.getElem?_eq_none (by omega)])
      have hget : ∀ k, k < array.length - 1 →
          picksOf ((List.range (array.length - 1)).map rand) k = rand k := by
        intro k hk
        simp only [picksOf]
        rw [List.getD_eq_getElem _ _ (by simpa using hk)]
        simp
      refine ⟨(List.range (array.length - 1)).map rand, ?_, ?_⟩
      · refine (mem_pickSequences _ _).2 ⟨by simp, fun k hk => ?_⟩
        have := hget k hk
        simp only [picksOf] at this
        rw [this]
        exact hr k hk
      · rw [← hres]
        exact shuffleLoop_congr _ _ _ _ hget

/-! ## Randomizer: results -/

/-- C1: for every input array and every sequence of picks with `0 ≤ j ≤ i` at each
step `i`, `shuffleArray` returns a list of the same length and with the same multiset
of elements as its input, and an input with at most one element is returned unchanged. -/
theorem shuffleArray_permutation {α : Type} (array : List α) (rand : Picks)
    (_hpicks : PicksInRange array.length rand) :
    (shuffleArray array rand).1.length = array.length ∧
      ((shuffleArray array rand).1 : Multiset α) = (array : Multiset α) ∧
      (array.length ≤ 1 → (shuffleArray array rand).1 = array) := by
  refine ⟨shuffleLoop_length _ _ _, Multiset.coe_eq_coe.2 (shuffleLoop_perm _ _ _), ?_⟩
  intro h
  have h0 : array.length - 1 = 0 := by omega
  simp only [shuffleArray, h0, shuffleLoop]

/-- Witness for C1: the picks `0, 1` on `[1, 2, 3]`. -/
theorem shuffleArray_permutation_witness :
    PicksInRange [1, 2, 3].length (picksOf [0, 1]) ∧
      (shuffleArray [1, 2, 3] (picksOf [0, 1])).1 = [3, 2, 1] ∧
      ((shuffleArray [1, 2, 3] (picksOf [0, 1])).1.length = [1, 2, 3].length ∧
        ((shuffleArray [1, 2, 3] (picksOf [0, 1])).1 : Multiset Nat) = ([1, 2, 3] : List Nat) ∧
        ([1, 2, 3].length ≤ 1 → (shuffleArray [1, 2, 3] (picksOf [0, 1])).1 = [1, 2, 3])) :=
  have h : PicksInRange [1, 2, 3].length (picksOf [0, 1]) := by
    unfold PicksInRange; decide
  ⟨h, by decide, shuffleArray_permutation [1, 2, 3] (picksOf [0, 1]) h⟩

/-- C8: on an array of `n` pairwise distinct elements every rearrangement of the array is
the result of `shuffleArray` for some in-range sequence of picks, and two in-range
sequences with the same result agree on every pick the call makes (the `n - 1` draws for
`i = n - 1, ..., 1`): each permutation comes from exactly one sequence of picks. There
are `n!` in-range pick sequences (`pickSequences` lists exactly these), and their results
are, each once, the `n!` permutations of the array. -/
theorem shuffleArray_uniform {α : Type} (array : List α) (hdistinct : array.Nodup) :
    (∀ p : List α, p.Perm array →
        ∃ rand : Picks, PicksInRange array.length rand ∧ (shuffleArray array rand).1 = p) ∧
      (∀ rand1 rand2 : Picks,
        PicksInRange array.length rand1 → PicksInRange array.length rand2 →
        (shuffleArray array rand1).1 = (shuffleArray array rand2).1 →
        ∀ k, k < array.length - 1 → rand1 k = rand2 k) ∧
      (pickSequences (array.length - 1)).length = array.length.factorial ∧
      (∀ js : List Nat, js ∈ pickSequences (array.length - 1) ↔
        js.length = array.length - 1 ∧ PicksInRange array.length (picksOf js)) ∧
      ((pickSequences (array.length - 1)).map fun js =>
        (shuffleArray array (picksOf js)).1).Perm array.permutations := by
  refine ⟨?_, ?_, ?_, fun js => mem_pickSequences _ js,
    shuffleArray_pickSequences array hdistinct⟩
  · intro p hp
    rcases Nat.eq_zero_or_pos array.length with h0 | hpos
    · have harr : array = [] := List.length_eq_zero.1 h0
      subst harr
      refine ⟨fun _ => 0, fun k hk => by simp at hk, ?_⟩
      rw [List.perm_nil.1 hp]
      rfl
    · exact shuffleLoop_surjective (array.length - 1) array p hdistinct (by omega) hp
        (fun m hm => by
          have hlen := hp.length_eq
          rw [List.getElem?_eq_none (by omega), List.getElem?_eq_none (by omega)])
  · intro rand1 rand2 h1 h2 heq
    rcases Nat.eq_zero_or_pos array.length with h0 | hpos
    · intro k hk; omega
    · exact shuffleLoop_injective (array.length - 1) array rand1 rand2 hdistinct (by omega) h1 h2 heq
  · rw [pickSequences_length]
    rcases Nat.eq_zero_or_pos array.length with h0 | hpos
    · rw [h0]; rfl
    · rw [Nat.sub_add_cancel hpos]

/-- Witness for C8: the three-element array `[1, 2, 3]`. -/
theorem shuffleArray_uniform_witness :
    ([1, 2, 3] : List Nat).Nodup ∧
      ((∀ p : List Nat, p.Perm [1, 2, 3] →
          ∃ rand : Picks, PicksInRange [1, 2, 3].length rand ∧ (shuffleArray [1, 2, 3] rand).1 = p) ∧
        (∀ rand1 rand2 : Picks,
          PicksInRange [1, 2, 3].length rand1 → PicksInRange [1, 2, 3].length rand2 →
          (shuffleArray [1, 2, 3] rand1).1 = (shuffleArray [1, 2, 3] rand2).1 →
          ∀ k, k < [1, 2, 3].length - 1 → rand1 k = rand2 k)) ∧
      ((pickSequences 2).map fun js => (shuffleArray [1, 2, 3] (picksOf js)).1) =
        [[2, 3, 1], [3, 2, 1], [3, 1, 2], [1, 3, 2], [2, 1, 3], [1, 2, 3]] :=
  have h := shuffleArray_uniform [1, 2, 3] (by decide)
  ⟨by decide, ⟨h.1, h.2.1⟩, by decide⟩

/-! ## Question source: results -/

theorem mapResults_length (decodeHtml : String → String) (results : List RawQuestion)
    (rand : Picks) : (QuizApp.mapResults decodeHtml results rand).1.length = results.length := by
  induction results generalizing rand with
  | nil => rfl
  | cons record rest ih => simp [QuizApp.mapResults, ih]

theorem mapResults_getElem? (decodeHtml : String → String) (results : List RawQuestion)
    (rand : Picks) (k : Nat) :
    (QuizApp.mapResults decodeHtml results rand).1[k]? =
      results[k]?.map fun record =>
        questionOf decodeHtml record fun m => rand (m + drawsBefore results k) := by
  induction results generalizing rand k with
  | nil => simp [QuizApp.mapResults]
  | cons record rest ih =>
    cases k with
    | zero => simp [QuizApp.mapResults, questionOf, drawsBefore]
    | succ k =>
      simp only [QuizApp.mapResults, List.getElem?_cons_succ, ih]
      simp only [shuffleArray, shuffleLoop_picks, drawsBefore, List.take_succ_cons, List.map_cons,
        List.sum_cons, List.length_cons, List.length_map, Nat.add_sub_cancel]
      congr 1
      funext r
      congr 1
      funext m
      congr 1
      omega

theorem loadQuestions_questions (decodeHtml : String → String) (app : QuizApp) (data : ApiData)
    (rand : Picks) (hcode : data.response_code = 0) :
    (QuizApp.loadQuestions decodeHtml app (some data) rand).1.questions =
      (QuizApp.mapResults decodeHtml data.results rand).1 := by
  simp only [QuizApp.loadQuestions, QuizApp.loadQuestionsFinish, hcode, if_true]
  split
  · rename_i app2 h
    simp only [QuizApp.displayQuestion] at h
    split at h
    · cases h
    · cases h; rfl
  · rename_i app2 h
    simp only [QuizApp.displayQuestion] at h
    split at h
    · cases h; rfl
    · cases h

/-- C2, as stated, fails: the provider answers with the success status and one record
whose incorrect answers contain the correct answer; after the load the question's
`correctAnswer` occurs twice in its `answers`. -/
theorem loadQuestions_correctAnswer_twice :
    duplicateData.response_code = 0 ∧
      (QuizApp.loadQuestions id (QuizApp.initial blankDocument) (some duplicateData)
          (picksOf [0, 0, 0])).1.questions =
        [{ question := "Q", correctAnswer := "A", answers := ["A", "B", "C", "A"] }] ∧
      ((QuizApp.loadQuestions id (QuizApp.initial blankDocument) (some duplicateData)
          (picksOf [0, 0, 0])).1.questions.map fun q => q.answers.count q.correctAnswer) = [2] := by
  decide

/-- C2, amended: after a load whose response has `response_code` 0 the session holds as
many questions as `results` has records, in the same order; question `k` has the decoded
text and decoded correct answer of record `k`, and its `answers` is `shuffleArray` (with
the draws that follow those of the earlier records) of the decoded correct answer
followed by the decoded incorrect answers, hence a rearrangement of that list. Its
`correctAnswer` occurs in `answers` once more than among the decoded incorrect answers:
at least once, and exactly once when no decoded incorrect answer equals it. -/
theorem loadQuestions_success (decodeHtml : String → String) (app : QuizApp) (data : ApiData)
    (rand : Picks) (hcode : data.response_code = 0) :
    (QuizApp.loadQuestions decodeHtml app (some data) rand).1.questions.length =
        data.results.length ∧
      ∀ (k : Nat) (record : RawQuestion), data.results[k]? = some record →
        ∃ q : Question,
          (QuizApp.loadQuestions decodeHtml app (some data) rand).1.questions[k]? = some q ∧
          q.question = decodeHtml record.question ∧
          q.correctAnswer = decodeHtml record.correct_answer ∧
          q.answers =
            (shuffleArray
              (decodeHtml record.correct_answer :: record.incorrect_answers.map decodeHtml)
              fun m => rand (m + drawsBefore data.results k)).1 ∧
          q.answers.Perm
            (decodeHtml record.correct_answer :: record.incorrect_answers.map decodeHtml) ∧
          q.answers.count q.correctAnswer =
            1 + (record.incorrect_answers.map decodeHtml).count (decodeHtml record.correct_answer) ∧
          q.correctAnswer ∈ q.answers ∧
          (decodeHtml record.correct_answer ∉ record.incorrect_answers.map decodeHtml →
            q.answers.count q.correctAnswer = 1) := by
  rw [loadQuestions_questions decodeHtml app data rand hcode]
  refine ⟨mapResults_length _ _ _, ?_⟩
  intro k record hk
  have hperm :
      (questionOf decodeHtml record fun m => rand (m + drawsBefore data.results k)).answers.Perm
        (decodeHtml record.correct_answer :: record.incorrect_answers.map decodeHtml) :=
    shuffleLoop_perm _ _ _
  have hcount :
      (questionOf decodeHtml record fun m => rand (m + drawsBefore data.results k)).answers.count
          (decodeHtml record.correct_answer) =
        1 + (record.incorrect_answers.map decodeHtml).count (decodeHtml record.correct_answer) := by
    rw [hperm.count_eq, List.count_cons_self]; omega
  refine ⟨questionOf decodeHtml record fun m => rand (m + drawsBefore data.results k), ?_, rfl, rfl,
    rfl, hperm, hcount, ?_, ?_⟩
  · rw [mapResults_getElem?, hk]; rfl
  · exact hperm.mem_iff.2 (List.mem_cons_self _ _)
  · intro hnot
    rw [show (questionOf decodeHtml record fun m => rand (m + drawsBefore data.results k)).correctAnswer
      = decodeHtml record.correct_answer from rfl, hcount, List.count_eq_zero.2 hnot]

/-! ## Quiz state machine: one event -/

theorem selectAnswer_of_showingResult (app : QuizApp) (answer : String) (buttonEl : Nat)
    (h : app.showingResult = true) : app.selectAnswer answer buttonEl = .ok app := by
  simp [QuizApp.selectAnswer, h]

/-- What `selectAnswer` does on an unanswered question that exists. -/
theorem selectAnswer_unanswered (app : QuizApp) (answer : String) (buttonEl : Nat)
    (question : Question) (hshow : app.showingResult = false)
    (hq : app.questions[app.currentQuestion]? = some question) :
    ∃ app2 : QuizApp, app.selectAnswer answer buttonEl = .ok app2 ∧
      app2.questions = app.questions ∧ app2.currentQuestion = app.currentQuestion ∧
      app2.score = app.score + (if answer = question.correctAnswer then 1 else 0) ∧
      app2.selectedAnswer = some answer ∧ app2.showingResult = true ∧
      app2.pendingTimers = app.pendingTimers + 1 ∧
      app2.loadingElHidden = app.loadingElHidden ∧ app2.quizElHidden = app.quizElHidden ∧
      app2.resultElHidden = app.resultElHidden ∧
      app2.finalScoreElText = app.finalScoreElText := by
  unfold QuizApp.selectAnswer
  simp only [hshow, hq]
  by_cases hc : answer = question.correctAnswer
  · exact ⟨_, rfl, by simp [hc]⟩
  · exact ⟨_, rfl, by simp [hc]⟩

theorem selectAnswer_showingResult (app : QuizApp) (answer : String) (buttonEl : Nat) :
    (settle (app.selectAnswer answer buttonEl)).showingResult = true := by
  cases hs : app.showingResult with
  | true => simp [QuizApp.selectAnswer, hs, settle]
  | false =>
    cases hq : app.questions[app.currentQuestion]? with
    | none => simp [QuizApp.selectAnswer, hs, hq, settle]
    | some question =>
      obtain ⟨app2, h, hrest⟩ := selectAnswer_unanswered app answer buttonEl question hs hq
      rw [h]
      exact hrest.2.2.2.2.1

/-- What `nextQuestion` does while another question follows. -/
theorem nextQuestion_of_lt (app : QuizApp) (h : app.currentQuestion + 1 < app.questions.length) :
    ∃ (app2 : QuizApp) (question : Question), app.nextQuestion = .ok app2 ∧
      app.questions[app.currentQuestion + 1]? = some question ∧
      app2.questions = app.questions ∧ app2.currentQuestion = app.currentQuestion + 1 ∧
      app2.score = app.score ∧ app2.selectedAnswer = none ∧ app2.showingResult = false ∧
      app2.pendingTimers = app.pendingTimers ∧
      app2.questionElText = some question.question ∧
      app2.questionCounterElText = some (app.currentQuestion + 2, app.questions.length) ∧
      app2.loadingElHidden = app.loadingElHidden ∧ app2.quizElHidden = app.quizElHidden ∧
      app2.resultElHidden = app.resultElHidden ∧
      app2.finalScoreElText = app.finalScoreElText := by
  unfold QuizApp.nextQuestion QuizApp.displayQuestion
  simp only [h, if_true, List.getElem?_eq_getElem h]
  exact ⟨_, _, rfl, rfl, by simp⟩

/-- What `nextQuestion` does on the last question and beyond. -/
theorem nextQuestion_of_not_lt (app : QuizApp)
    (h : ¬ app.currentQuestion + 1 < app.questions.length) :
    ∃ app2 : QuizApp, app.nextQuestion = .ok app2 ∧
      app2.questions = app.questions ∧ app2.currentQuestion = app.currentQuestion + 1 ∧
      app2.score = app.score ∧ app2.selectedAnswer = app.selectedAnswer ∧
      app2.showingResult = app.showingResult ∧ app2.pendingTimers = app.pendingTimers ∧
      app2.loadingElHidden = true ∧ app2.quizElHidden = true ∧ app2.resultElHidden = false ∧
      app2.finalScoreElText = some (app.score, app.questions.length) ∧
      app2.resultMessageElText = some (app.score, app.questions.length) := by
  unfold QuizApp.nextQuestion
  simp only [h, if_false]
  exact ⟨_, rfl, by simp [QuizApp.showFinalResult, QuizApp.showResult]⟩

theorem step_questions (app : QuizApp) (e : Event) : (step app e).questions = app.questions := by
  cases e with
  | click answer buttonEl =>
    simp only [step]
    cases hs : app.showingResult with
    | true => simp [selectAnswer_of_showingResult _ _ _ hs, settle]
    | false =>
      cases hq : app.questions[app.currentQuestion]? with
      | none => simp [QuizApp.selectAnswer, hs, hq, settle]
      | some question =>
        obtain ⟨app2, h, hrest⟩ := selectAnswer_unanswered app answer buttonEl question hs hq
        rw [h]
        exact hrest.1
  | timeout =>
    simp only [step]
    split
    · rfl
    · by_cases h : app.currentQuestion + 1 < app.questions.length
      · obtain ⟨app2, q, h2, hrest⟩ :=
          nextQuestion_of_lt { app with pendingTimers := app.pendingTimers - 1 } h
        rw [h2]
        exact hrest.2.1
      · obtain ⟨app2, h2, hrest⟩ :=
          nextQuestion_of_not_lt { app with pendingTimers := app.pendingTimers - 1 } h
        rw [h2]
        exact hrest.1

theorem run_questions (app : QuizApp) (events : List Event) :
    (run app events).questions = app.questions := by
  induction events generalizing app with
  | nil => rfl
  | cons e rest ih => simp only [run, List.foldl_cons] at ih ⊢; rw [ih, step_questions]

theorem sessionInv_of_fresh (app : QuizApp) (h : FreshSession app) : SessionInv app := by
  obtain ⟨hq, hc, hs, hshow, ht⟩ := h
  have hlen : 0 < app.questions.length := List.length_pos.2 hq
  refine ⟨fun _ => ⟨by omega, by omega, ht⟩, fun h2 => ?_⟩
  rw [hshow] at h2
  cases h2

/-- A load answered with success and at least one record, started from a state with
question 0 current, nothing scored and no timeout armed, leaves a fresh session. -/
theorem freshSession_of_load (decodeHtml : String → String) (app : QuizApp) (data : ApiData)
    (rand : Picks) (hcode : data.response_code = 0) (hne : data.results ≠ [])
    (hcur : app.currentQuestion = 0) (hscore : app.score = 0) (htimers : app.pendingTimers = 0) :
    FreshSession (QuizApp.loadQuestionsFinish decodeHtml app (some data) rand).1 := by
  obtain ⟨code, results⟩ := data
  cases results with
  | nil => exact absurd rfl hne
  | cons record rest =>
    simp only at hcode
    simp only [QuizApp.loadQuestionsFinish, hcode, if_true, QuizApp.mapResults,
      QuizApp.displayQuestion, QuizApp.showQuiz, hcur, List.getElem?_cons_zero]
    exact ⟨by simp, rfl, hscore, rfl, htimers⟩

/-- The constructor's load, answered with success and at least one record, leaves a
fresh session. -/
theorem freshSession_of_constructor (decodeHtml : String → String) (document : Document)
    (data : ApiData) (rand : Picks) (hcode : data.response_code = 0) (hne : data.results ≠ []) :
    FreshSession
      (QuizApp.loadQuestionsFinish decodeHtml (QuizApp.constructor document) (some data) rand).1 :=
  freshSession_of_load decodeHtml _ data rand hcode hne rfl rfl rfl

/-- The load started by `restartQuiz` while no timeout is armed, answered with success and
at least one record, leaves a fresh session. -/
theorem freshSession_of_restartQuiz (decodeHtml : String → String) (app : QuizApp)
    (data : ApiData) (rand : Picks) (hcode : data.response_code = 0) (hne : data.results ≠ [])
    (htimers : app.pendingTimers = 0) :
    FreshSession (QuizApp.loadQuestionsFinish decodeHtml app.restartQuiz (some data) rand).1 :=
  freshSession_of_load decodeHtml _ data rand hcode hne rfl rfl htimers

theorem step_sessionInv (app : QuizApp) (e : Event) (h : SessionInv app) :
    SessionInv (step app e) := by
  obtain ⟨hf, ht⟩ := h
  cases e with
  | click answer buttonEl =>
    simp only [step]
    cases hs : app.showingResult with
    | true =>
      rw [selectAnswer_of_showingResult _ _ _ hs]
      exact ⟨hf, ht⟩
    | false =>
      obtain ⟨hlt, hscore, htimers⟩ := hf hs
      obtain ⟨app2, h, hqs, hcur, hsc, -, hshow, htm, -⟩ :=
        selectAnswer_unanswered app answer buttonEl _ hs (List.getElem?_eq_getElem hlt)
      rw [h]
      simp only [settle]
      refine ⟨fun h2 => ?_, fun _ => Or.inl ⟨?_, ?_, ?_⟩⟩
      · rw [hshow] at h2; cases h2
      · rw [hcur, hqs]; exact hlt
      · rw [hsc, hcur]; split <;> omega
      · rw [htm, htimers]
  | timeout =>
    simp only [step]
    split
    · exact ⟨hf, ht⟩
    · rename_i hne
      rcases Bool.eq_false_or_eq_true app.showingResult with hs | hs
      · rcases ht hs with ⟨hlt, hscore, htimers⟩ | ⟨-, -, htimers⟩
        · by_cases h : app.currentQuestion + 1 < app.questions.length
          · obtain ⟨app2, q, h2, -, hqs, hcur, hsc, -, hshow, htm, -⟩ :=
              nextQuestion_of_lt { app with pendingTimers := app.pendingTimers - 1 } h
            rw [h2]
            simp only [settle]
            refine ⟨fun _ => ⟨?_, ?_, ?_⟩, fun h3 => ?_⟩
            · rw [hcur, hqs]; exact h
            · rw [hsc, hcur]; exact hscore
            · rw [htm]; simp only; omega
            · rw [hshow] at h3; cases h3
          · obtain ⟨app2, h2, hqs, hcur, hsc, -, hshow, htm, -⟩ :=
              nextQuestion_of_not_lt { app with pendingTimers := app.pendingTimers - 1 } h
            rw [h2]
            simp only [settle]
            refine ⟨fun h3 => ?_, fun _ => Or.inr ⟨?_, ?_, ?_⟩⟩
            · rw [hshow] at h3; simp only at h3; rw [hs] at h3; cases h3
            · rw [hcur, hqs]; simp only; omega
            · rw [hsc, hqs]; simp only; omega
            · rw [htm]; simp only; omega
        · exact absurd htimers hne
      · exact absurd (hf hs).2.2 hne

theorem run_sessionInv (app : QuizApp) (events : List Event) (h : SessionInv app) :
    SessionInv (run app events) := by
  induction events generalizing app with
  | nil => exact h
  | cons e rest ih =>
    simp only [run, List.foldl_cons] at ih ⊢
    exact ih _ (step_sessionInv app e h)

theorem run_cons (app : QuizApp) (e : Event) (events : List Event) :
    run app (e :: events) = run (step app e) events := rfl

theorem score_le_of_sessionInv (app : QuizApp) (h : SessionInv app) :
    app.score ≤ app.questions.length ∧ app.currentQuestion ≤ app.questions.length ∧
      app.pendingTimers ≤ 1 := by
  obtain ⟨hf, ht⟩ := h
  rcases Bool.eq_false_or_eq_true app.showingResult with hs | hs
  · rcases ht hs with ⟨h1, h2, h3⟩ | ⟨h1, h2, h3⟩ <;> omega
  · obtain ⟨h1, h2, h3⟩ := hf hs
    omega

theorem correctSelections_nil (questions : List Question) :
    correctSelections questions [] = 0 := by
  cases questions <;> rfl

/-- Playing the remaining questions, one click and one timeout each, from an
unanswered question. -/
theorem run_playThrough (selections : List (String × Nat)) (app : QuizApp)
    (hshow : app.showingResult = false)
    (hlen : app.currentQuestion + selections.length = app.questions.length)
    (hne : selections ≠ []) :
    (run app (playThrough selections)).score =
        app.score + correctSelections (app.questions.drop app.currentQuestion) selections ∧
      (run app (playThrough selections)).currentQuestion = app.questions.length ∧
      (run app (playThrough selections)).loadingElHidden = true ∧
      (run app (playThrough selections)).quizElHidden = true ∧
      (run app (playThrough selections)).resultElHidden = false ∧
      (run app (playThrough selections)).finalScoreElText =
        some ((run app (playThrough selections)).score, app.questions.length) := by
  induction selections generalizing app with
  | nil => exact absurd rfl hne
  | cons sel rest ih =>
    obtain ⟨answer, buttonEl⟩ := sel
    have hlt : app.currentQuestion < app.questions.length := by
      simp only [List.length_cons] at hlen; omega
    obtain ⟨app2, h2, hqs2, hcur2, hsc2, -, hshow2, htm2, -⟩ :=
      selectAnswer_unanswered app answer buttonEl _ hshow (List.getElem?_eq_getElem hlt)
    have hstep1 : step app (Event.click answer buttonEl) = app2 := by
      simp only [step, h2, settle]
    have htm2' : app2.pendingTimers ≠ 0 := by rw [htm2]; omega
    have hdrop : app.questions.drop app.currentQuestion =
        app.questions[app.currentQuestion] :: app.questions.drop (app.currentQuestion + 1) :=
      List.drop_eq_getElem_cons hlt
    simp only [playThrough, run_cons, hstep1]
    by_cases h : app2.currentQuestion + 1 < app2.questions.length
    · obtain ⟨app3, q, h3, -, hqs3, hcur3, hsc3, -, hshow3, -⟩ :=
        nextQuestion_of_lt { app2 with pendingTimers := app2.pendingTimers - 1 } h
      have hstep2 : step app2 Event.timeout = app3 := by
        simp only [step, htm2', if_false, h3, settle]
      have hrest : rest ≠ [] := by
        intro hnil
        subst hnil
        simp only [List.length_cons, List.length_nil] at hlen
        rw [hcur2, hqs2] at h
        omega
      have hih := ih app3 hshow3 (by
        rw [hcur3, hqs3]
        simp only [hcur2, hqs2]
        simp only [List.length_cons] at hlen
        omega) hrest
      have hq3 : app3.questions = app.questions := by rw [hqs3]; exact hqs2
      have hc3 : app3.currentQuestion = app.currentQuestion + 1 := by rw [hcur3]; simp only [hcur2]
      have hs3 : app3.score = app.score +
          (if answer = app.questions[app.currentQuestion].correctAnswer then 1 else 0) := by
        rw [hsc3]; exact hsc2
      rw [hstep2]
      rw [hq3, hc3, hs3] at hih
      rw [hdrop]
      simp only [correctSelections]
      refine ⟨?_, hih.2.1, hih.2.2.1, hih.2.2.2.1, hih.2.2.2.2.1, hih.2.2.2.2.2⟩
      rw [hih.1]; omega
    · obtain ⟨app3, h3, hqs3, hcur3, hsc3, -, -, -, hl3, hqz3, hr3, hf3, -⟩ :=
        nextQuestion_of_not_lt { app2 with pendingTimers := app2.pendingTimers - 1 } h
      have hstep2 : step app2 Event.timeout = app3 := by
        simp only [step, htm2', if_false, h3, settle]
      have hrest : rest = [] := by
        rw [hcur2, hqs2] at h
        simp only [List.length_cons] at hlen
        have : rest.length = 0 := by omega
        exact List.length_eq_zero.1 this
      subst hrest
      simp only [playThrough, run, List.foldl_nil] at *
      rw [hstep2, hdrop]
      simp only [correctSelections]
      have hq3 : app3.questions = app.questions := by rw [hqs3]; exact hqs2
      refine ⟨?_, ?_, hl3, hqz3, hr3, ?_⟩
      · rw [hsc3]; simp only [hsc2, correctSelections_nil, Nat.add_zero]
      · rw [hcur3]; simp only [hcur2]
        simp only [List.length_cons, List.length_nil] at hlen
        omega
      · rw [hf3]; simp only [hqs2, hsc3]

/-! ## Quiz state machine: results -/

/-- Witness for C2: two sample records loaded by the constructor on a blank page. -/
theorem loadQuestions_success_witness :
    (sampleData 2).response_code = 0 ∧
      (QuizApp.loadQuestions id (QuizApp.initial blankDocument) (some (sampleData 2))
          (picksOf [])).1.questions.length = (sampleData 2).results.length :=
  ⟨by decide,
    (loadQuestions_success id (QuizApp.initial blankDocument) (sampleData 2) (picksOf [])
      (by decide)).1⟩

/-- C3: whatever the session and the answers `a` and `b`, a `selectAnswer(b)` that follows
`selectAnswer(a)` before the question advances returns without changing anything: the
state, and so `score`, `currentQuestion`, `selectedAnswer` and `showingResult`, is
exactly the one left by `selectAnswer(a)`. -/
theorem selectAnswer_idempotent (app : QuizApp) (a b : String) (buttonA buttonB : Nat) :
    (settle (app.selectAnswer a buttonA)).selectAnswer b buttonB =
        .ok (settle (app.selectAnswer a buttonA)) ∧
      (settle ((settle (app.selectAnswer a buttonA)).selectAnswer b buttonB)).score =
        (settle (app.selectAnswer a buttonA)).score ∧
      (settle ((settle (app.selectAnswer a buttonA)).selectAnswer b buttonB)).currentQuestion =
        (settle (app.selectAnswer a buttonA)).currentQuestion ∧
      (settle ((settle (app.selectAnswer a buttonA)).selectAnswer b buttonB)).selectedAnswer =
        (settle (app.selectAnswer a buttonA)).selectedAnswer ∧
      (settle ((settle (app.selectAnswer a buttonA)).selectAnswer b buttonB)).showingResult =
        (settle (app.selectAnswer a buttonA)).showingResult := by
  have h := selectAnswer_of_showingResult (settle (app.selectAnswer a buttonA)) b buttonB
    (selectAnswer_showingResult app a buttonA)
  rw [h]
  exact ⟨rfl, rfl, rfl, rfl, rfl⟩

/-- C4: from a freshly loaded session with at least one question, with one selected
answer per question, each followed by the advance its timeout makes, the final score is
the number of questions whose selected answer equals `correctAnswer`, the session is
finished (`currentQuestion` is the number of questions, the result view shows that score
out of that total), and after every prefix of the events the score is at most the number
of questions. -/
theorem playThrough_score (app : QuizApp) (selections : List (String × Nat))
    (hfresh : FreshSession app) (hlen : selections.length = app.questions.length) :
    (run app (playThrough selections)).score = correctSelections app.questions selections ∧
      (run app (playThrough selections)).currentQuestion = app.questions.length ∧
      (run app (playThrough selections)).questions = app.questions ∧
      (run app (playThrough selections)).resultElHidden = false ∧
      (run app (playThrough selections)).quizElHidden = true ∧
      (run app (playThrough selections)).finalScoreElText =
        some (correctSelections app.questions selections, app.questions.length) ∧
      ∀ m : Nat,
        (run app ((playThrough selections).take m)).score ≤ app.questions.length := by
  have hinv := sessionInv_of_fresh app hfresh
  obtain ⟨hq, hc, hs, hshow, ht⟩ := hfresh
  have hne : selections ≠ [] := by
    intro hnil
    rw [hnil] at hlen
    exact hq (List.length_eq_zero.1 hlen.symm)
  have h := run_playThrough selections app hshow (by rw [hc, hlen]; omega) hne
  rw [hc, hs, List.drop_zero, Nat.zero_add] at h
  refine ⟨h.1, h.2.1, run_questions _ _, h.2.2.2.2.1, h.2.2.2.1, ?_, ?_⟩
  · rw [h.2.2.2.2.2, h.1]
  · intro m
    have h2 := score_le_of_sessionInv _ (run_sessionInv app ((playThrough selections).take m) hinv)
    rw [run_questions] at h2
    exact h2.1

/-- Witness for C4: ten questions, seven answered correctly and then three incorrectly;
the session ends with score 7 of 10 on the result view. -/
theorem playThrough_score_witness :
    FreshSession (sampleSession 10) ∧ sevenOfTen.length = (sampleSession 10).questions.length ∧
      correctSelections (sampleSession 10).questions sevenOfTen = 7 ∧
      (sampleSession 10).questions.length = 10 ∧
      (run (sampleSession 10) (playThrough sevenOfTen)).score =
        correctSelections (sampleSession 10).questions sevenOfTen ∧
      (run (sampleSession 10) (playThrough sevenOfTen)).finalScoreElText =
        some (correctSelections (sampleSession 10).questions sevenOfTen,
          (sampleSession 10).questions.length) :=
  have h := playThrough_score (sampleSession 10) sevenOfTen (by decide) (by decide)
  ⟨by decide, by decide, by decide, by decide, h.1, h.2.2.2.2.2.1⟩

/-- Calling `nextQuestion` as many times as questions remain ends on the result view. -/
theorem nextQuestionTimes_finish (n : Nat) (app : QuizApp) (hn : 0 < n)
    (hlen : app.currentQuestion + n = app.questions.length) :
    ∃ fin : QuizApp, nextQuestionTimes n app = .ok fin ∧
      fin.questions = app.questions ∧ fin.currentQuestion = app.questions.length ∧
      fin.score = app.score ∧ fin.loadingElHidden = true ∧ fin.quizElHidden = true ∧
      fin.resultElHidden = false ∧
      fin.finalScoreElText = some (app.score, app.questions.length) := by
  induction n generalizing app with
  | zero => omega
  | succ n ih =>
    by_cases h : app.currentQuestion + 1 < app.questions.length
    · obtain ⟨app2, q, h2, -, hqs, hcur, hsc, -⟩ := nextQuestion_of_lt app h
      obtain ⟨fin, hfin, hrest⟩ := ih app2 (by omega) (by rw [hcur, hqs]; omega)
      refine ⟨fin, ?_, ?_⟩
      · simp only [nextQuestionTimes, h2]; exact hfin
      · rw [hqs, hsc] at hrest; exact hrest
    · obtain ⟨app2, h2, hqs, hcur, hsc, -, -, -, hl, hqz, hr, hf, -⟩ := nextQuestion_of_not_lt app h
      have hn0 : n = 0 := by omega
      subst hn0
      refine ⟨app2, ?_, hqs, ?_, hsc, hl, hqz, hr, hf⟩
      · simp only [nextQuestionTimes, h2]
      · rw [hcur]; omega

/-- C5, as stated, fails: on a session of one question the first `nextQuestion()` reaches
the end (`currentQuestion = 1 = total`), and one more call is not a no-op: it returns
with `currentQuestion = 2`, outside `[0, total]`. -/
theorem nextQuestion_past_the_end :
    (sampleSession 1).currentQuestion = 0 ∧ (sampleSession 1).questions.length = 1 ∧
      (settle (nextQuestionTimes 1 (sampleSession 1))).currentQuestion = 1 ∧
      (settle (nextQuestionTimes 1 (sampleSession 1))).resultElHidden = false ∧
      (settle (nextQuestionTimes 2 (sampleSession 1))).currentQuestion = 2 ∧
      settle (nextQuestionTimes 2 (sampleSession 1)) ≠
        settle (nextQuestionTimes 1 (sampleSession 1)) := by
  decide

/-- C5, amended: from question 0 of a session with `total ≥ 1` questions, `nextQuestion`
called exactly `total` times returns on the result view with `currentQuestion = total`.
`nextQuestion` itself has no guard: one more direct call returns with
`currentQuestion = total + 1`, the result view still shown. The guard is in the callers:
in every state that answer clicks and timeouts reach from a freshly loaded session,
`currentQuestion` is at most `total`, and once it is `total` no timeout is armed and
every further click or timeout leaves the state as it is. -/
theorem nextQuestion_total_times (app : QuizApp) (hcur : app.currentQuestion = 0)
    (hne : app.questions ≠ []) :
    (∃ fin : QuizApp, nextQuestionTimes app.questions.length app = .ok fin ∧
        fin.currentQuestion = app.questions.length ∧ fin.questions = app.questions ∧
        fin.loadingElHidden = true ∧ fin.quizElHidden = true ∧ fin.resultElHidden = false ∧
        fin.finalScoreElText = some (app.score, app.questions.length) ∧
        ∃ fin2 : QuizApp, fin.nextQuestion = .ok fin2 ∧
          fin2.currentQuestion = app.questions.length + 1 ∧ fin2.resultElHidden = false) ∧
      (FreshSession app → ∀ events : List Event,
        (run app events).currentQuestion ≤ app.questions.length ∧
          ((run app events).currentQuestion = app.questions.length →
            (run app events).pendingTimers = 0 ∧
              ∀ e : Event, step (run app events) e = run app events)) := by
  have hpos : 0 < app.questions.length := List.length_pos.2 hne
  constructor
  · obtain ⟨fin, hfin, hqs, hc, -, hl, hqz, hr, hf⟩ :=
      nextQuestionTimes_finish app.questions.length app hpos (by omega)
    obtain ⟨fin2, h2, -, hc2, -, -, -, -, -, -, hr2, -⟩ :=
      nextQuestion_of_not_lt fin (by rw [hc, hqs]; omega)
    exact ⟨fin, hfin, hc, hqs, hl, hqz, hr, hf, fin2, h2, by rw [hc2, hc], hr2⟩
  · intro hfresh events
    have hinv := run_sessionInv app events (sessionInv_of_fresh app hfresh)
    have hb := score_le_of_sessionInv _ hinv
    rw [run_questions] at hb
    refine ⟨hb.2.1, fun hend => ?_⟩
    obtain ⟨hf, ht⟩ := hinv
    rw [run_questions] at hf ht
    have hshow : (run app events).showingResult = true := by
      rcases Bool.eq_false_or_eq_true (run app events).showingResult with hs | hs
      · exact hs
      · have := (hf hs).1; omega
    have htimers : (run app events).pendingTimers = 0 := by
      rcases ht hshow with ⟨h1, -, -⟩ | ⟨-, -, h3⟩
      · omega
      · exact h3
    refine ⟨htimers, fun e => ?_⟩
    cases e with
    | click answer buttonEl =>
      simp only [step, selectAnswer_of_showingResult _ _ _ hshow, settle]
    | timeout => simp only [step, htimers, if_true]

/-- Witness for C5: the session of three sample questions. -/
theorem nextQuestion_total_times_witness :
    (sampleSession 3).currentQuestion = 0 ∧ (sampleSession 3).questions ≠ [] ∧
      ∃ fin : QuizApp,
        nextQuestionTimes (sampleSession 3).questions.length (sampleSession 3) = .ok fin ∧
          fin.currentQuestion = (sampleSession 3).questions.length :=
  have h := (nextQuestion_total_times (sampleSession 3) (by decide) (by decide)).1
  ⟨by decide, by decide, h.elim fun fin hfin => ⟨fin, hfin.1, hfin.2.1⟩⟩

/-- C9: in every state that answer clicks and timeouts reach from a freshly loaded
session with at least one question, at most one timeout is armed, and none while the
current question is unanswered. A click arms a timeout exactly when the question is
unanswered and leaves the count alone otherwise. `showingResult` goes from `true` to
`false` only by a timeout that fires, takes the one armed timeout away and displays the
next question. -/
theorem at_most_one_timer (app : QuizApp) (events : List Event) (hfresh : FreshSession app) :
    (run app events).pendingTimers ≤ 1 ∧
      ((run app events).showingResult = false → (run app events).pendingTimers = 0) ∧
      (∀ (answer : String) (buttonEl : Nat),
        (step (run app events) (Event.click answer buttonEl)).pendingTimers =
          if (run app events).showingResult = true then (run app events).pendingTimers
          else (run app events).pendingTimers + 1) ∧
      (∀ e : Event, (run app events).showingResult = true →
        (step (run app events) e).showingResult = false →
          e = Event.timeout ∧ (run app events).pendingTimers = 1 ∧
            (step (run app events) e).pendingTimers = 0 ∧
            (step (run app events) e).currentQuestion = (run app events).currentQuestion + 1 ∧
            ∃ question : Question,
              app.questions[(run app events).currentQuestion + 1]? = some question ∧
                (step (run app events) e).questionElText = some question.question) := by
  have hinv := run_sessionInv app events (sessionInv_of_fresh app hfresh)
  have hb := score_le_of_sessionInv _ hinv
  have hqs := run_questions app events
  obtain ⟨hf, ht⟩ := hinv
  refine ⟨hb.2.2, fun hs => (hf hs).2.2, ?_, ?_⟩
  · intro answer buttonEl
    rcases Bool.eq_false_or_eq_true (run app events).showingResult with hs | hs
    · simp only [step, selectAnswer_of_showingResult _ _ _ hs, settle, hs, if_true]
    · obtain ⟨hlt, -, -⟩ := hf hs
      obtain ⟨app2, h2, -, -, -, -, -, htm, -⟩ :=
        selectAnswer_unanswered (run app events) answer buttonEl _ hs (List.getElem?_eq_getElem hlt)
      simp only [step, h2, settle, hs, htm]
      simp
  · intro e hs hcleared
    cases e with
    | click answer buttonEl =>
      simp only [step, selectAnswer_of_showingResult _ _ _ hs, settle] at hcleared
      rw [hs] at hcleared
      cases hcleared
    | timeout =>
      simp only [step] at hcleared ⊢
      by_cases h0 : (run app events).pendingTimers = 0
      · simp only [h0, if_true] at hcleared
        rw [hs] at hcleared
        cases hcleared
      · simp only [h0, if_false] at hcleared ⊢
        have h1 : (run app events).pendingTimers = 1 := by omega
        by_cases h : (run app events).currentQuestion + 1 < (run app events).questions.length
        · obtain ⟨app2, q, h2, hq, -, hcur, -, -, -, htm, hqt, -⟩ :=
            nextQuestion_of_lt
              { run app events with pendingTimers := (run app events).pendingTimers - 1 } h
          simp only [h2, settle]
          refine ⟨trivial, h1, ?_, hcur, q, ?_, hqt⟩
          · rw [htm]; simp only; omega
          · rw [← hqs]; exact hq
        · obtain ⟨app2, h2, -, -, -, -, hshow, -⟩ :=
            nextQuestion_of_not_lt
              { run app events with pendingTimers := (run app events).pendingTimers - 1 } h
          simp only [h2, settle] at hcleared
          rw [hshow] at hcleared
          simp only at hcleared
          rw [hs] at hcleared
          cases hcleared

/-- Witness for C9: the session of two sample questions after a click on the correct
answer, a second click, and the timeout. -/
theorem at_most_one_timer_witness :
    FreshSession (sampleSession 2) ∧
      (run (sampleSession 2)
        [Event.click "a" 3, Event.click "b" 0, Event.timeout]).pendingTimers ≤ 1 :=
  ⟨by decide,
    (at_most_one_timer (sampleSession 2) [Event.click "a" 3, Event.click "b" 0, Event.timeout]
      (by decide)).1⟩

/-! ## Load failures and restart -/

/-- C6: when the provider's `response_code` is not 0 the load ends in `showError()` right
after `showLoading()`: the state is the prior one with the loading view shown and the
error markup in it. The question list is as it was (empty when it was empty, as after the
constructor or `restartQuiz`), `currentQuestion` and `score` are unchanged, the quiz
element stays hidden, and nothing `showQuiz` or `displayQuestion` writes has changed. -/
theorem loadQuestions_failure (decodeHtml : String → String) (app : QuizApp) (data : ApiData)
    (rand : Picks) (hcode : data.response_code ≠ 0) :
    (QuizApp.loadQuestions decodeHtml app (some data) rand).1 = (app.showLoading).showError ∧
      (QuizApp.loadQuestions decodeHtml app (some data) rand).2 = rand ∧
      (QuizApp.loadQuestions decodeHtml app (some data) rand).1.questions = app.questions ∧
      (app.questions = [] →
        (QuizApp.loadQuestions decodeHtml app (some data) rand).1.questions = []) ∧
      (QuizApp.loadQuestions decodeHtml app (some data) rand).1.currentQuestion =
        app.currentQuestion ∧
      (QuizApp.loadQuestions decodeHtml app (some data) rand).1.score = app.score ∧
      (QuizApp.loadQuestions decodeHtml app (some data) rand).1.loadingElError = true ∧
      (QuizApp.loadQuestions decodeHtml app (some data) rand).1.loadingElHidden = false ∧
      (QuizApp.loadQuestions decodeHtml app (some data) rand).1.quizElHidden = true ∧
      (QuizApp.loadQuestions decodeHtml app (some data) rand).1.resultElHidden = true ∧
      (QuizApp.loadQuestions decodeHtml app (some data) rand).1.questionElText =
        app.questionElText ∧
      (QuizApp.loadQuestions decodeHtml app (some data) rand).1.answersElButtons =
        app.answersElButtons ∧
      (QuizApp.loadQuestions decodeHtml app (some data) rand).1.questionCounterElText =
        app.questionCounterElText ∧
      (QuizApp.loadQuestions decodeHtml app (some data) rand).1.selectedAnswer =
        app.selectedAnswer ∧
      (QuizApp.loadQuestions decodeHtml app (some data) rand).1.showingResult =
        app.showingResult := by
  have h : QuizApp.loadQuestions decodeHtml app (some data) rand =
      ((app.showLoading).showError, rand) := by
    simp only [QuizApp.loadQuestions, QuizApp.loadQuestionsFinish, QuizApp.loadQuestionsStart,
      hcode, if_false, Nat.add_sub_cancel]
    rfl
  rw [h]
  exact ⟨rfl, rfl, rfl, fun h0 => h0, rfl, rfl, rfl, rfl, rfl, rfl, rfl, rfl, rfl, rfl, rfl⟩

/-- Witness for C6: the constructor's load answered with the provider's code 5. -/
theorem loadQuestions_failure_witness :
    failureData.response_code ≠ 0 ∧
      (QuizApp.loadQuestions id (QuizApp.initial blankDocument) (some failureData)
          (picksOf [])).1.questions = [] ∧
      (QuizApp.loadQuestions id (QuizApp.initial blankDocument) (some failureData)
          (picksOf [])).1.loadingElError = true ∧
      (QuizApp.loadQuestions id (QuizApp.initial blankDocument) (some failureData)
          (picksOf [])).1.quizElHidden = true :=
  have h := loadQuestions_failure id (QuizApp.initial blankDocument) failureData (picksOf [])
    (by decide)
  ⟨by decide, h.2.2.2.1 rfl, h.2.2.2.2.2.2.1, h.2.2.2.2.2.2.2.2.1⟩

/-- C7: from every state `restartQuiz` returns with `score = 0`, `currentQuestion = 0`,
`selectedAnswer = null`, `showingResult = false`, an empty question list and the loading
view shown, and with one more `loadQuestions` call waiting for its response. -/
theorem restartQuiz_resets (app : QuizApp) :
    (app.restartQuiz).score = 0 ∧ (app.restartQuiz).currentQuestion = 0 ∧
      (app.restartQuiz).selectedAnswer = none ∧ (app.restartQuiz).showingResult = false ∧
      (app.restartQuiz).questions = [] ∧
      (app.restartQuiz).loadingElHidden = false ∧ (app.restartQuiz).quizElHidden = true ∧
      (app.restartQuiz).resultElHidden = true ∧
      (app.restartQuiz).pendingFetches = app.pendingFetches + 1 :=
  ⟨rfl, rfl, rfl, rfl, rfl, rfl, rfl, rfl, rfl⟩

/-- What a load answered with the success status and no record does, from any state:
the question list becomes empty, `score` and `currentQuestion` keep their values,
`showQuiz()` has run, `displayQuestion` has written the counter and thrown on the
missing question before it writes the question text or clears the answer buttons, and
the error handler has written its markup into the loading element that `showQuiz()` hid.
The result element stays hidden and no final score is written. -/
theorem loadQuestions_empty_effect (decodeHtml : String → String) (app : QuizApp)
    (data : ApiData) (rand : Picks) (hcode : data.response_code = 0)
    (hempty : data.results = []) :
    (QuizApp.loadQuestions decodeHtml app (some data) rand).1.questions = [] ∧
      (QuizApp.loadQuestions decodeHtml app (some data) rand).1.score = app.score ∧
      (QuizApp.loadQuestions decodeHtml app (some data) rand).1.currentQuestion =
        app.currentQuestion ∧
      (∃ thrown : QuizApp,
        QuizApp.displayQuestion
            (QuizApp.showQuiz { app.loadQuestionsStart with
              pendingFetches := app.loadQuestionsStart.pendingFetches - 1, questions := [] }) =
          .error thrown ∧
        (QuizApp.loadQuestions decodeHtml app (some data) rand).1 = thrown.showError) ∧
      (QuizApp.loadQuestions decodeHtml app (some data) rand).1.loadingElError = true ∧
      (QuizApp.loadQuestions decodeHtml app (some data) rand).1.loadingElHidden = true ∧
      (QuizApp.loadQuestions decodeHtml app (some data) rand).1.quizElHidden = false ∧
      (QuizApp.loadQuestions decodeHtml app (some data) rand).1.resultElHidden = true ∧
      (QuizApp.loadQuestions decodeHtml app (some data) rand).1.questionCounterElText =
        some (app.currentQuestion + 1, 0) ∧
      (QuizApp.loadQuestions decodeHtml app (some data) rand).1.finalScoreElText =
        app.finalScoreElText ∧
      (QuizApp.loadQuestions decodeHtml app (some data) rand).1.questionElText =
        app.questionElText ∧
      (QuizApp.loadQuestions decodeHtml app (some data) rand).1.answersElButtons =
        app.answersElButtons ∧
      (QuizApp.loadQuestions decodeHtml app (some data) rand).1.pendingTimers =
        app.pendingTimers := by
  simp only [QuizApp.loadQuestions, QuizApp.loadQuestionsFinish, hcode, hempty, if_true,
    QuizApp.mapResults, QuizApp.displayQuestion, QuizApp.showQuiz, List.getElem?_nil]
  exact ⟨rfl, rfl, rfl, ⟨_, rfl, rfl⟩, rfl, rfl, rfl, rfl, rfl, rfl, rfl, rfl, rfl⟩

/-- C10: the code at the failing input. The constructor's load answered with the success
status and no record leaves an empty question list and score 0, but does not reach the
final result: the result element stays hidden and no final score is written. The quiz
element is shown with the counter `Question 1 of 0`, and the error markup sits in the
loading element, which is hidden; the load answered with a failure status leaves that
element visible. When the same answer comes to the load started by `restartQuiz` after a
finished one-question quiz, the quiz element is shown with the old question text and its
four answer buttons. -/
theorem loadQuestions_empty_not_finished :
    (sampleData 0).response_code = 0 ∧ (sampleData 0).results = [] ∧
      (QuizApp.loadQuestions id (QuizApp.initial blankDocument) (some (sampleData 0))
          (picksOf [])).1.questions = [] ∧
      (QuizApp.loadQuestions id (QuizApp.initial blankDocument) (some (sampleData 0))
          (picksOf [])).1.score = 0 ∧
      (QuizApp.loadQuestions id (QuizApp.initial blankDocument) (some (sampleData 0))
          (picksOf [])).1.resultElHidden = true ∧
      (QuizApp.loadQuestions id (QuizApp.initial blankDocument) (some (sampleData 0))
          (picksOf [])).1.finalScoreElText = none ∧
      (QuizApp.loadQuestions id (QuizApp.initial blankDocument) (some (sampleData 0))
          (picksOf [])).1.quizElHidden = false ∧
      (QuizApp.loadQuestions id (QuizApp.initial blankDocument) (some (sampleData 0))
          (picksOf [])).1.questionCounterElText = some (1, 0) ∧
      (QuizApp.loadQuestions id (QuizApp.initial blankDocument) (some (sampleData 0))
          (picksOf [])).1.loadingElError = true ∧
      (QuizApp.loadQuestions id (QuizApp.initial blankDocument) (some (sampleData 0))
          (picksOf [])).1.loadingElHidden = true ∧
      (QuizApp.loadQuestions id (QuizApp.initial blankDocument) (some failureData)
          (picksOf [])).1.loadingElHidden = false ∧
      (run (sampleSession 1) (playThrough [("a", 3)])).resultElHidden = false ∧
      (QuizApp.loadQuestionsFinish id
          (run (sampleSession 1) (playThrough [("a", 3)])).restartQuiz (some (sampleData 0))
          (picksOf [])).1.quizElHidden = false ∧
      (QuizApp.loadQuestionsFinish id
          (run (sampleSession 1) (playThrough [("a", 3)])).restartQuiz (some (sampleData 0))
          (picksOf [])).1.questionElText = some "Q" ∧
      (QuizApp.loadQuestionsFinish id
          (run (sampleSession 1) (playThrough [("a", 3)])).restartQuiz (some (sampleData 0))
          (picksOf [])).1.answersElButtons.length = 4 ∧
      (QuizApp.loadQuestionsFinish id
          (run (sampleSession 1) (playThrough [("a", 3)])).restartQuiz (some (sampleData 0))
          (picksOf [])).1.resultElHidden = true := by
  decide

end CoreAuth
